import Mathlib

/-!
Verification of the QMemstat core (mosaicwidget.cpp) against its
natural-language specification.

The development shallowly embeds, in Lean, the pieces of the source the
claims are about:

* `PageInfoReader::addData` (streaming frame decoder) — `addData` below,
  with the internal buffer as a list of bytes, `m_length` as an integer
  (`-1` = unset, as in the source) and the decoded `m_mappedRegions`.
* the LargeRegion coalescing, row-count computation and the
  `m_largeRegions` row index of `MosaicWidget::updatePageInfo`.
* `MosaicWidget::addressAtPos` and `MosaicWidget::printPageFlagsAtAddr`.
* the per-page colour classification of the paint loop.
* `printablePageFlags` / `pageFlagNames`.

Machine integers are modelled as `Nat` with explicit wraparound where the
source relies on it (the unsigned 64-bit subtraction `mr.end - mr.start`).
Multi-byte reads are little-endian (the source `reinterpret_cast`s
buffers on a native little-endian host).  Reads the C++ performs past the
end of the buffered data (undefined behaviour in the source) are modelled
as reading the byte 0; every concrete input used in a theorem keeps such
reads inside the buffer, where the C++ behaviour is defined and agrees
with the model.
-/

/-- Modelled from the spec: `PageInfo::pageSize` lives in pageinfo.h/cpp,
which is not part of the sources here; the spec fixes it as the
4096-class OS page size constant used throughout. -/
def pageSize : Nat := 4096

/-- `s_columnCount` from mosaicwidget.cpp (512 page cells per row). -/
def columnCount : Nat := 512

/-- `tilesPerSeparator` from `MosaicWidget::updatePageInfo` (2 separator rows). -/
def tilesPerSeparator : Nat := 2

/-- `maxAllowedGap = 64 * PageInfo::pageSize` from `MosaicWidget::updatePageInfo`. -/
def maxAllowedGap : Nat := 64 * pageSize

/-- The `MappedRegion` record (struct from pageinfo.h, fields exactly as
used by mosaicwidget.cpp): `start`/`end` are u64 addresses, `backingFile`
a byte string, `useCounts`/`combinedFlags` per-page u32 arrays. -/
structure MappedRegion where
  start : Nat
  end_ : Nat
  backingFile : List Nat
  useCounts : List Nat
  combinedFlags : List Nat
deriving Repr, DecidableEq

/-- One byte of the buffer; the C++ reads through `const char *`.  Out of
range reads (undefined behaviour in the source) give 0 in the model. -/
def readU8 (buf : List Nat) (pos : Nat) : Nat := buf.getD pos 0

/-- Little-endian u32 read, as `*reinterpret_cast<const uint32_t *>(buf + pos)`. -/
def readU32 (buf : List Nat) (pos : Nat) : Nat :=
  readU8 buf pos + 256 * (readU8 buf (pos + 1) +
    256 * (readU8 buf (pos + 2) + 256 * readU8 buf (pos + 3)))

/-- Little-endian u64 read, as `*reinterpret_cast<const uint64_t *>(buf + pos)`. -/
def readU64 (buf : List Nat) (pos : Nat) : Nat :=
  readU32 buf pos + 4294967296 * readU32 buf (pos + 4)

/-- The byte string `std::string(buf + pos, len)`. -/
def readBytes (buf : List Nat) (pos len : Nat) : List Nat :=
  (List.range len).map (fun i => readU8 buf (pos + i))

/-- The u32 array `assign(array, array + len)` of consecutive u32s. -/
def readU32s (buf : List Nat) (pos len : Nat) : List Nat :=
  (List.range len).map (fun i => readU32 buf (pos + 4 * i))

/-- Reinterpreting an unsigned 64-bit value as the signed `m_length`
(two's complement, as on the source's native host). -/
def toSigned64 (n : Nat) : Int :=
  if n < 9223372036854775808 then (n : Int) else (n : Int) - 18446744073709551616

/-- Unsigned 64-bit subtraction `a - b` with wraparound, used by the
source for `mr.end - mr.start`. -/
def sub64 (a b : Nat) : Nat := (a + 18446744073709551616 - b) % 18446744073709551616

/-- The body of the region-decoding `for` loop of `PageInfoReader::addData`
(lines `for (size_t pos = sizeof(size_t); pos < endPos; )`).  Each
iteration reads `start`, `end`, `backingFileLen`, the backing file bytes,
then `arrayLength = (end - start) / pageSize` u32 use counts and u32 flag
words, advancing `pos` exactly as the source does
(`(backingFileLength + sizeof(uint32_t) - 1) & ~0x3` rounds the file name
up to a 4-byte boundary, i.e. `(bfl + 3) / 4 * 4`).  The `fuel` argument
only makes the recursion structural; `pos` grows by at least 20 per
iteration, so `endPos` iterations are always enough. -/
def decodeRegions (buf : List Nat) (endPos : Nat) : Nat → Nat → List MappedRegion
  | 0, _ => []
  | fuel + 1, pos =>
    if pos < endPos then
      let start := readU64 buf pos
      let end_ := readU64 buf (pos + 8)
      let bfl := readU32 buf (pos + 16)
      let backingFile := readBytes buf (pos + 20) bfl
      let pos2 := pos + 20 + (bfl + 3) / 4 * 4
      let arrayLength := sub64 end_ start / pageSize
      let useCounts := readU32s buf pos2 arrayLength
      let combinedFlags := readU32s buf (pos2 + 4 * arrayLength) arrayLength
      ⟨start, end_, backingFile, useCounts, combinedFlags⟩ ::
        decodeRegions buf endPos fuel (pos2 + 8 * arrayLength)
    else []

/-- Decoding one complete frame whose bytes occupy `[0, endPos)` of the
buffer: the region loop starting at `pos = sizeof(size_t) = 8`. -/
def decodeFrame (buf : List Nat) (endPos : Nat) : List MappedRegion :=
  decodeRegions buf endPos endPos 8

/-- The state of a `PageInfoReader`: growable byte buffer, the signed
`m_length` header cache (`-1` when unset) and the decoded regions. -/
structure ReaderState where
  m_buffer : List Nat
  m_length : Int
  m_mappedRegions : List MappedRegion
deriving Repr, DecidableEq

/-- A fresh `PageInfoReader`. -/
def initState : ReaderState := ⟨[], -1, []⟩

/-- The declared frame length read from the head of the buffer. -/
def readLen (buf : List Nat) : Int := toSigned64 (readU64 buf 0)

/-- Lines 140–142 of mosaicwidget.cpp: if `m_length < 0` and at least
`sizeof(size_t)` bytes are buffered, (re)read `m_length` from the head of
the buffer. -/
def computeLen (buf : List Nat) (len : Int) : Int :=
  if len < 0 ∧ 8 ≤ buf.length then readLen buf else len

/-- The `while (true)` loop of `PageInfoReader::addData`: refresh
`m_length`, and while a full frame (`m_length + sizeof(size_t)` bytes) is
buffered, clear and re-decode `m_mappedRegions`, drop the consumed bytes
and reset `m_length` to `-1`; the call returns whether at least one frame
was decoded.  `fuel` makes the recursion structural; each decode removes
at least 8 bytes, so `buffer length + 1` is always enough. -/
def addDataLoop : Nat → List Nat → Int → List MappedRegion → ReaderState × Bool
  | 0, buf, len, regs => (⟨buf, len, regs⟩, false)
  | fuel + 1, buf, len, regs =>
    if 0 ≤ computeLen buf len ∧ computeLen buf len + 8 ≤ (buf.length : Int) then
      ((addDataLoop fuel (buf.drop ((computeLen buf len).toNat + 8)) (-1)
          (decodeFrame buf ((computeLen buf len).toNat + 8))).1, true)
    else (⟨buf, computeLen buf len, regs⟩, false)

/-- `PageInfoReader::addData`: append the new bytes to `m_buffer`, then
run the decode loop. -/
def addData (st : ReaderState) (data : List Nat) : ReaderState × Bool :=
  addDataLoop ((st.m_buffer ++ data).length + 1) (st.m_buffer ++ data)
    st.m_length st.m_mappedRegions

/-- Feeding a sequence of byte chunks through consecutive `addData` calls. -/
def feedChunks (st : ReaderState) (cs : List (List Nat)) : ReaderState :=
  cs.foldl (fun s c => (addData s c).1) st

/-- A byte sequence that is exactly one complete frame: at least the
8-byte length prefix, and the declared length equal to the payload size. -/
def IsFrame (fs : List Nat) : Prop :=
  8 ≤ fs.length ∧ readLen fs = (fs.length : Int) - 8

/-- The head of the pending stream forms a complete frame: the length
prefix is readable, nonnegative, and that many payload bytes are present. -/
def HeadFrameComplete (b : List Nat) : Prop :=
  8 ≤ b.length ∧ 0 ≤ readLen b ∧ readLen b + 8 ≤ (b.length : Int)

instance : DecidablePred IsFrame := fun fs =>
  inferInstanceAs (Decidable (8 ≤ fs.length ∧ readLen fs = (fs.length : Int) - 8))

instance : DecidablePred HeadFrameComplete := fun b =>
  inferInstanceAs (Decidable (8 ≤ b.length ∧ 0 ≤ readLen b ∧ readLen b + 8 ≤ (b.length : Int)))

/-- The LargeRegion coalescing loop of `MosaicWidget::updatePageInfo`
(lines 345–355): `cur` is the running `largeRegion` pair; a region whose
`start` exceeds `cur.second + maxAllowedGap` pushes the current pair and
starts a new one at `r.start`; in every iteration `cur.second` becomes
`r.end`; the final pair is pushed after the loop.  The sum
`largeRegion.second + maxAllowedGap` is computed in wrapping unsigned
64-bit (`quint64`) arithmetic, so it is reduced mod 2^64. -/
def coalesceGo (cur : Nat × Nat) : List MappedRegion → List (Nat × Nat)
  | [] => [cur]
  | r :: rs =>
    if (cur.2 + maxAllowedGap) % 18446744073709551616 < r.start then
      cur :: coalesceGo (r.start, r.end_) rs
    else coalesceGo (cur.1, r.end_) rs

/-- The `largeRegions` vector computed by `MosaicWidget::updatePageInfo`:
the running pair starts at `(front.start, front.end)` and the loop runs
over all regions (including the first). -/
def largeRegionsOf : List MappedRegion → List (Nat × Nat)
  | [] => []
  | r :: rs => coalesceGo (r.start, r.end_) (r :: rs)

/-- Number of adjacent pairs whose gap exceeds the tolerance, continuing
from a previous region end `e`. -/
def countSplitsFrom (e : Nat) : List MappedRegion → Nat
  | [] => 0
  | r :: rs => (if e + maxAllowedGap < r.start then 1 else 0) + countSplitsFrom r.end_ rs

/-- Number of adjacent region pairs whose gap (`next.start - prev.end`)
exceeds `maxAllowedGap` (i.e. exceeds 64 pages for page-aligned regions). -/
def countSplits : List MappedRegion → Nat
  | [] => 0
  | r :: rs => countSplitsFrom r.end_ rs

/-- Adjacent regions do not overlap and are sorted:
`regions[i].start >= regions[i-1].end` for consecutive entries. -/
def chainSorted : List MappedRegion → Prop
  | a :: b :: rs => a.end_ ≤ b.start ∧ chainSorted (b :: rs)
  | _ => True

/-- Decidability of `chainSorted`, by structural recursion. -/
def decChainSorted : (l : List MappedRegion) → Decidable (chainSorted l)
  | [] => .isTrue trivial
  | [_] => .isTrue trivial
  | a :: b :: rs =>
    have : Decidable (chainSorted (b :: rs)) := decChainSorted (b :: rs)
    inferInstanceAs (Decidable (a.end_ ≤ b.start ∧ chainSorted (b :: rs)))

instance : DecidablePred chainSorted := decChainSorted

/-- Validity of a region sequence as the source asserts it (lines
314–328): every region has `end >= start` and the sequence is sorted and
non-overlapping. -/
def validSorted (regions : List MappedRegion) : Prop :=
  (∀ r ∈ regions, r.start ≤ r.end_) ∧ chainSorted regions

instance : DecidablePred validSorted := fun regions =>
  inferInstanceAs (Decidable ((∀ r ∈ regions, r.start ≤ r.end_) ∧ chainSorted regions))

/-- Rows contributed by one largeRegion (lines 372–375):
`((second - first) / pageSize + (columnCount - 1)) / columnCount`, the
span subtraction being unsigned 64-bit (`quint64`); the quotient
arithmetic cannot overflow 64 bits. -/
def rowsOfLargeRegion (lr : Nat × Nat) : Nat :=
  (sub64 lr.2 lr.1 / pageSize + (columnCount - 1)) / columnCount

/-- The row count computed in `MosaicWidget::updatePageInfo` (lines
370–375): start from `(largeRegions.size() - 1) * tilesPerSeparator` and
add each largeRegion's rows.  `rowCount` is a 32-bit `uint`, so the
initialisation and every `+=` reduce the accumulator mod 2^32. -/
def rowCountOf (lrs : List (Nat × Nat)) : Nat :=
  lrs.foldl (fun acc lr => (acc + rowsOfLargeRegion lr) % 4294967296)
    ((lrs.length - 1) * tilesPerSeparator % 4294967296)

/-- The spec's ceiling division, `ceil(a / b)` on naturals. -/
def ceilDivSpec (a b : Nat) : Nat := (a + b - 1) / b

/-- The `m_largeRegions` row index recorded by the paint loop of
`MosaicWidget::updatePageInfo`: for each largeRegion, the pair
`(row, region->start)` is pushed when painting of that largeRegion
begins (line 405; under the sortedness invariant the first mapped region
of a largeRegion starts at the largeRegion's start), and painting plus
the end-of-region fill advance `row` by exactly `rowsOfLargeRegion`
before `tilesPerSeparator` more rows are added for the separator
(line 489); `row` is a 32-bit `uint`, so the advancement wraps mod 2^32. -/
def buildRowIndexGo (row : Nat) : List (Nat × Nat) → List (Nat × Nat)
  | [] => []
  | lr :: rest =>
    (row, lr.1) ::
      buildRowIndexGo ((row + rowsOfLargeRegion lr + tilesPerSeparator) % 4294967296) rest

/-- The complete `m_largeRegions` index; painting starts at row 0. -/
def buildRowIndex (lrs : List (Nat × Nat)) : List (Nat × Nat) :=
  buildRowIndexGo 0 lrs

/-- The `upper_bound` search of `MosaicWidget::addressAtPos` followed by
the `--lIt` step, modelled as a scan: on the row index (ascending in
`firstRow`, as the source maintains it), `std::upper_bound` finds the
first entry with `row < firstRow`; if that is `begin()` the function
bails out, otherwise the entry just before it — the last entry with
`firstRow <= row` — is used. -/
def lookupRowIndex : List (Nat × Nat) → Nat → Option (Nat × Nat)
  | [], _ => none
  | e :: rest, row =>
    if row < e.1 then none
    else some ((lookupRowIndex rest row).getD e)

/-- `MosaicWidget::addressAtPos` at tile granularity (the source first
divides pixel coordinates by `s_pixelsPerTile`; the claims speak of the
resulting `(row, column)` cell): a miss returns 0, otherwise
`base + ((row - firstRow) * columnCount + column) * pageSize` (line 518).
The cell offset `(row - firstRow) * columnCount + column` is computed in
32-bit unsigned arithmetic (`quint32` row and first, `uint` column
count), so it wraps mod 2^32 before the 64-bit multiplication by the
page size and the addition of the 64-bit base, which wrap mod 2^64. -/
def addressAtCell (idx : List (Nat × Nat)) (row col : Nat) : Nat :=
  match lookupRowIndex idx row with
  | none => 0
  | some e =>
    (e.2 + ((row - e.1) * columnCount + col) % 4294967296 * pageSize) %
      18446744073709551616

/-- The `upper_bound` by end address in `MosaicWidget::printPageFlagsAtAddr`:
first region with `addr < end` on the sorted region list, as a scan. -/
def findRegionByEnd : List MappedRegion → Nat → Option MappedRegion
  | [], _ => none
  | r :: rs, addr => if addr < r.end_ then some r else findRegionByEnd rs addr

/-- `MosaicWidget::printPageFlagsAtAddr` (lines 521–547): address 0 is a
no-op; a miss past the last region or into a gap emits nothing; otherwise
the flags, use count and backing file of the containing page are emitted
(the source indexes the arrays unchecked; the model reads 0 out of
range). -/
def printPageFlagsAtAddr (regions : List MappedRegion) (addr : Nat) :
    Option (Nat × Nat × List Nat) :=
  if addr = 0 then none
  else
    match findRegionByEnd regions addr with
    | none => none
    | some r =>
      if r.start > addr then none
      else
        some (r.combinedFlags.getD ((addr - r.start) / pageSize) 0,
          r.useCounts.getD ((addr - r.start) / pageSize) 0, r.backingFile)

/-- The colours used by the per-page classification in the paint loop. -/
inductive PageColor where
  | white
  | gray
  | green
  | greenDark
  | magenta
  | magentaLight
  | yellow
  | redDark
deriving Repr, DecidableEq

/-- Kernel page-flag bit positions used by the classifier
(linux/kernel-page-flags.h). -/
def KPF_MMAP : Nat := 11

/-- Kernel page-flag bit position of ANON. -/
def KPF_ANON : Nat := 12

/-- Kernel page-flag bit position of NOPAGE. -/
def KPF_NOPAGE : Nat := 20

/-- Kernel page-flag bit position of THP. -/
def KPF_THP : Nat := 22

/-- The per-cell colour classification of the paint loop in
`MosaicWidget::updatePageInfo` (lines 417–435), translated branch for
branch: present bit clear → gray; MMAP and not ANON → green (dark unless
use count > 1); THP → light magenta; use count 1 → magenta; use count
> 1 → yellow; NOPAGE → dark red; otherwise white. -/
def classifyPage (flags useCount : Nat) : PageColor :=
  if ¬ flags.testBit 31 then .gray
  else if flags.testBit KPF_MMAP ∧ ¬ flags.testBit KPF_ANON then
    (if useCount > 1 then .green else .greenDark)
  else if flags.testBit KPF_THP then .magentaLight
  else if useCount = 1 then .magenta
  else if useCount > 1 then .yellow
  else if flags.testBit KPF_NOPAGE then .redDark
  else .white

/-- The classification precedence exactly as the claim states it
(first match wins): not-present → gray; mmap-backed and not anonymous →
green, darker when use count ≤ 1 and lighter when use count > 1;
transparent-huge-page → light magenta regardless of use count; use count
== 1 → magenta; use count > 1 → yellow; no-page flag → dark red;
otherwise white. -/
def classifySpecPage (flags useCount : Nat) : PageColor :=
  if ¬ flags.testBit 31 then .gray
  else if flags.testBit KPF_MMAP ∧ ¬ flags.testBit KPF_ANON then
    (if useCount ≤ 1 then .greenDark else .green)
  else if flags.testBit KPF_THP then .magentaLight
  else if useCount = 1 then .magenta
  else if 1 < useCount then .yellow
  else if flags.testBit KPF_NOPAGE then .redDark
  else .white

/-- The `pageFlagNames` table of mosaicwidget.cpp (lines 68–106): entries
0–22 are the kernel KPF names, entries 23–27 are `nullptr` (modelled as
`none`), entries 28–31 the remapped pagemap bits. -/
def pageFlagNames (i : Nat) : Option String :=
  match i with
  | 0 => some "LOCKED"
  | 1 => some "ERROR"
  | 2 => some "REFERENCED"
  | 3 => some "UPTODATE"
  | 4 => some "DIRTY"
  | 5 => some "LRU"
  | 6 => some "ACTIVE"
  | 7 => some "SLAB"
  | 8 => some "WRITEBACK"
  | 9 => some "RECLAIM"
  | 10 => some "BUDDY"
  | 11 => some "MMAP"
  | 12 => some "ANON"
  | 13 => some "SWAPCACHE"
  | 14 => some "SWAPBACKED"
  | 15 => some "COMPOUND_HEAD"
  | 16 => some "COMPOUND_TAIL"
  | 17 => some "HUGE"
  | 18 => some "UNEVICTABLE"
  | 19 => some "HWPOISON"
  | 20 => some "NOPAGE"
  | 21 => some "KSM"
  | 22 => some "THP"
  | 28 => some "SOFT_DIRTY"
  | 29 => some "FILE_PAGE / SHARE_ANON"
  | 30 => some "SWAPPED"
  | 31 => some "PRESENT"
  | _ => none

/-- `isFlagSet(flags, shift)` from mosaicwidget.cpp: `flags & (1 << shift)`. -/
def isFlagSet (flags : Nat) (shift : Nat) : Bool := flags.testBit shift

/-- `QString::resize(length() - 2)`: keep all but the last two characters. -/
def chop2 (s : String) : String := String.mk (s.data.take (s.data.length - 2))

/-- The final `if (ret.length() >= 2) ret.resize(ret.length() - 2)` of
`printablePageFlags`. -/
def chopString (s : String) : String := if 2 ≤ s.data.length then chop2 s else s

/-- The loop of `printablePageFlags` (lines 116–122): for each set bit in
ascending order, `assert(pageFlagNames[i])` (a `none` entry models the
assertion failing, i.e. the debug-build abort) and append the name plus
a trailing `", "`; `count` is the number of iterations left. -/
def printFlagsGo (flags : Nat) : Nat → Nat → String → Option String
  | 0, _, ret => some (chopString ret)
  | count + 1, i, ret =>
    if isFlagSet flags i then
      match pageFlagNames i with
      | none => none
      | some nm => printFlagsGo flags count (i + 1) (ret ++ nm ++ ", ")
    else printFlagsGo flags count (i + 1) ret

/-- `printablePageFlags(flags)`: the 32-iteration loop, then the chop of
the trailing separator; `none` models the failed assertion. -/
def printablePageFlags (flags : Nat) : Option String :=
  printFlagsGo flags 32 0 ""

/-- Comma-joining a list of names, exactly as the claim words it:
the names separated by `", "`. -/
def commaJoined : List String → String
  | [] => ""
  | [s] => s
  | s :: rest => s ++ ", " ++ commaJoined rest

/-- The names of the set flags in ascending bit order. -/
def setFlagNames (flags : Nat) : List String :=
  ((List.range 32).filter (fun i => flags.testBit i)).filterMap pageFlagNames

/-- Each name of the loop with its trailing `", "` separator, concatenated. -/
def joinTrail : List String → String
  | [] => ""
  | s :: rest => s ++ ", " ++ joinTrail rest

lemma getD_append_lt {l l' : List Nat} {n : Nat} (h : n < l.length) :
    (l ++ l').getD n 0 = l.getD n 0 := by
  simp [List.getD, List.getElem?_append_left h]

lemma readU32_append {buf extra : List Nat} {pos : Nat} (h : pos + 4 ≤ buf.length) :
    readU32 (buf ++ extra) pos = readU32 buf pos := by
  simp only [readU32, readU8]
  rw [getD_append_lt (by omega), getD_append_lt (by omega),
    getD_append_lt (by omega), getD_append_lt (by omega)]

lemma readU64_append {buf extra : List Nat} {pos : Nat} (h : pos + 8 ≤ buf.length) :
    readU64 (buf ++ extra) pos = readU64 buf pos := by
  simp only [readU64]
  rw [readU32_append (by omega), readU32_append (by omega)]

lemma readLen_append {buf extra : List Nat} (h : 8 ≤ buf.length) :
    readLen (buf ++ extra) = readLen buf := by
  simp only [readLen]
  rw [readU64_append (by omega)]

lemma addDataLoop_step_decode {fuel : Nat} {buf : List Nat} {len : Int}
    {regs : List MappedRegion}
    (h : 0 ≤ computeLen buf len ∧ computeLen buf len + 8 ≤ (buf.length : Int)) :
    addDataLoop (fuel + 1) buf len regs =
      ((addDataLoop fuel (buf.drop ((computeLen buf len).toNat + 8)) (-1)
          (decodeFrame buf ((computeLen buf len).toNat + 8))).1, true) := by
  rw [addDataLoop, if_pos h]

lemma addDataLoop_step_break {fuel : Nat} {buf : List Nat} {len : Int}
    {regs : List MappedRegion}
    (h : ¬(0 ≤ computeLen buf len ∧ computeLen buf len + 8 ≤ (buf.length : Int))) :
    addDataLoop (fuel + 1) buf len regs = (⟨buf, computeLen buf len, regs⟩, false) := by
  rw [addDataLoop, if_neg h]

lemma addDataLoop_enough :
    ∀ (n : Nat) (buf : List Nat) (len : Int) (regs : List MappedRegion) (fuel : Nat),
      buf.length ≤ n → buf.length < fuel →
      addDataLoop fuel buf len regs = addDataLoop (buf.length + 1) buf len regs := by
  intro n
  induction n with
  | zero =>
    intro buf len regs fuel h1 h2
    obtain ⟨f, rfl⟩ : ∃ f, fuel = f + 1 := ⟨fuel - 1, by omega⟩
    have hb : buf.length = 0 := by omega
    by_cases hc : 0 ≤ computeLen buf len ∧ computeLen buf len + 8 ≤ (buf.length : Int)
    · omega
    · rw [addDataLoop_step_break hc, hb, addDataLoop_step_break hc]
  | succ n ih =>
    intro buf len regs fuel h1 h2
    obtain ⟨f, rfl⟩ : ∃ f, fuel = f + 1 := ⟨fuel - 1, by omega⟩
    by_cases hc : 0 ≤ computeLen buf len ∧ computeLen buf len + 8 ≤ (buf.length : Int)
    · rw [addDataLoop_step_decode hc, addDataLoop_step_decode hc]
      have hlen : ((computeLen buf len).toNat + 8) ≤ buf.length := by omega
      have hdrop : (buf.drop ((computeLen buf len).toNat + 8)).length =
          buf.length - ((computeLen buf len).toNat + 8) := by
        simp [List.length_drop]
      rw [ih _ _ _ f (by omega) (by omega),
        ih _ _ _ buf.length (by omega) (by omega)]
    · rw [addDataLoop_step_break hc, addDataLoop_step_break hc]

/-- A well-formed example frame: declared length 28, one region
`[0x1000, 0x2000)` with no backing file, one page with use count 1 and
flag word `1 << 31` (present). -/
def frame36 : List Nat :=
  [28, 0, 0, 0, 0, 0, 0, 0,
   0, 16, 0, 0, 0, 0, 0, 0,
   0, 32, 0, 0, 0, 0, 0, 0,
   0, 0, 0, 0,
   1, 0, 0, 0,
   0, 0, 0, 128]

/-- The empty frame: declared length 0, no regions. -/
def frame8 : List Nat := [0, 0, 0, 0, 0, 0, 0, 0]

lemma computeLen_of_frame {fs : List Nat} (h : IsFrame fs) :
    computeLen fs (-1) = (fs.length : Int) - 8 := by
  have h1 := h.1
  have h2 := h.2
  simp only [computeLen, if_pos (by constructor <;> omega : (-1 : Int) < 0 ∧ 8 ≤ fs.length)]
  exact h2

lemma addData_single_frame {fs : List Nat} (h : IsFrame fs) :
    addData initState fs = (⟨[], -1, decodeFrame fs fs.length⟩, true) := by
  have h1 := h.1
  have hcl : computeLen fs (-1) = (fs.length : Int) - 8 := computeLen_of_frame h
  have hcond : 0 ≤ computeLen fs (-1) ∧ computeLen fs (-1) + 8 ≤ (fs.length : Int) := by
    rw [hcl]; omega
  have hpos : (computeLen fs (-1)).toNat + 8 = fs.length := by rw [hcl]; omega
  have hstart : addData initState fs = addDataLoop (fs.length + 1) fs (-1) [] := by
    simp [addData, initState]
  rw [hstart]
  rw [addDataLoop_step_decode hcond, hpos, List.drop_length]
  rw [addDataLoop_enough fs.length [] (-1) _ fs.length (by simp) (by simp; omega)]
  rw [show ([] : List Nat).length + 1 = 0 + 1 by simp]
  rw [addDataLoop_step_break (by simp [computeLen])]
  simp [computeLen]

lemma addData_empty_on_empty {regs : List MappedRegion} :
    addData ⟨[], -1, regs⟩ [] = (⟨[], -1, regs⟩, false) := by
  have hstart : addData ⟨[], -1, regs⟩ [] = addDataLoop (0 + 1) [] (-1) regs := by
    simp [addData]
  rw [hstart]
  rw [addDataLoop_step_break (by simp [computeLen])]
  simp [computeLen]

lemma feedChunks_empty_chunks {regs : List MappedRegion} :
    ∀ (cs : List (List Nat)), (∀ c ∈ cs, c = []) →
      feedChunks ⟨[], -1, regs⟩ cs = ⟨[], -1, regs⟩ := by
  intro cs
  induction cs with
  | nil => intro _; rfl
  | cons c rest ih =>
    intro h
    have hc : c = [] := h c (by simp)
    show feedChunks (addData ⟨[], -1, regs⟩ c).1 rest = _
    rw [hc, addData_empty_on_empty]
    exact ih (fun x hx => h x (by simp [hx]))


lemma chunk_feed (fs : List Nat) (hf : IsFrame fs) :
    ∀ (cs : List (List Nat)) (b : List Nat) (l : Int) (regs : List MappedRegion),
      b ++ cs.flatten = fs →
      (l = -1 ∨ (8 ≤ b.length ∧ l = readLen b)) →
      b.length < fs.length →
      (feedChunks ⟨b, l, regs⟩ cs).m_mappedRegions = decodeFrame fs fs.length := by
  intro cs
  induction cs with
  | nil =>
    intro b l regs hjoin _ hlt
    simp only [List.flatten_nil, List.append_nil] at hjoin
    subst hjoin
    omega
  | cons c rest ih =>
    intro b l regs hjoin hgood hlt
    have hjoin' : (b ++ c) ++ rest.flatten = fs := by
      rw [List.append_assoc]
      simpa [List.flatten_cons] using hjoin
    have hfeed : feedChunks ⟨b, l, regs⟩ (c :: rest) =
        feedChunks (addData ⟨b, l, regs⟩ c).1 rest := rfl
    have hstep : addData ⟨b, l, regs⟩ c =
        addDataLoop ((b ++ c).length + 1) (b ++ c) l regs := rfl
    -- the refreshed m_length is canonical for the grown buffer
    have hlen2 : (computeLen (b ++ c) l = -1 ∧ (b ++ c).length < 8) ∨
        (8 ≤ (b ++ c).length ∧ computeLen (b ++ c) l = readLen (b ++ c)) := by
      rcases hgood with hgood | ⟨hb8, hbl⟩
      · subst hgood
        by_cases h8 : 8 ≤ (b ++ c).length
        · right
          refine ⟨h8, ?_⟩
          unfold computeLen
          rw [if_pos ⟨by norm_num, h8⟩]
        · left
          refine ⟨?_, by omega⟩
          unfold computeLen
          rw [if_neg (fun hh => h8 hh.2)]
      · right
        have h8 : 8 ≤ (b ++ c).length := by
          rw [List.length_append]; omega
        refine ⟨h8, ?_⟩
        have hr : readLen (b ++ c) = readLen b := readLen_append hb8
        unfold computeLen
        by_cases hneg : l < 0
        · rw [if_pos ⟨hneg, h8⟩]
        · rw [if_neg (fun hh => hneg hh.1), hbl, hr]
    have hreadfs : 8 ≤ (b ++ c).length → readLen (b ++ c) = (fs.length : Int) - 8 := by
      intro h8
      have heq : readLen (b ++ c) = readLen fs := by
        rw [← hjoin']
        exact (readLen_append h8).symm
      rw [heq, hf.2]
    have hlensum : (b ++ c).length + rest.flatten.length = fs.length := by
      rw [← hjoin']
      simp [List.length_append]
      omega
    by_cases hb' : (b ++ c).length < fs.length
    · -- frame still incomplete: the call buffers and waits
      have hneg : ¬(0 ≤ computeLen (b ++ c) l ∧
          computeLen (b ++ c) l + 8 ≤ ((b ++ c).length : Int)) := by
        rcases hlen2 with ⟨hm, _⟩ | ⟨h8, hm⟩
        · rw [hm]; omega
        · rw [hm, hreadfs h8]
          omega
      rw [hfeed, hstep, addDataLoop_step_break hneg]
      apply ih
      · exact hjoin'
      · rcases hlen2 with ⟨hm, _⟩ | ⟨h8, hm⟩
        · exact Or.inl hm
        · exact Or.inr ⟨h8, hm⟩
      · exact hb'
    · -- the buffer holds the whole frame: decode happens now
      have hjnil : rest.flatten = [] := by
        apply List.eq_nil_of_length_eq_zero
        omega
      have hbfs : b ++ c = fs := by
        rw [hjnil, List.append_nil] at hjoin'
        exact hjoin'
      have h8 : 8 ≤ (b ++ c).length := by rw [hbfs]; exact hf.1
      have hm : computeLen (b ++ c) l = (fs.length : Int) - 8 := by
        rcases hlen2 with ⟨_, hsmall⟩ | ⟨_, hm⟩
        · omega
        · rw [hm, hreadfs h8]
      have hcond : 0 ≤ computeLen (b ++ c) l ∧
          computeLen (b ++ c) l + 8 ≤ ((b ++ c).length : Int) := by
        rw [hm, hbfs]
        have := hf.1
        omega
      have htonat : (computeLen (b ++ c) l).toNat + 8 = fs.length := by
        rw [hm]
        have := hf.1
        omega
      rw [hfeed, hstep, addDataLoop_step_decode hcond, htonat, hbfs, List.drop_length]
      rw [addDataLoop_enough fs.length [] (-1) _ fs.length (by simp)
        (by simp; have := hf.1; omega)]
      rw [show ([] : List Nat).length + 1 = 0 + 1 by simp]
      rw [addDataLoop_step_break (by
        unfold computeLen
        rw [if_neg (by intro hh; simp at hh)]
        omega)]
      have hcl0 : computeLen [] (-1) = -1 := by
        unfold computeLen
        rw [if_neg (by intro hh; simp at hh)]
      rw [hcl0]
      rw [feedChunks_empty_chunks rest (fun x hx => (List.flatten_eq_nil_iff.1 hjnil) x hx)]


lemma coalesceGo_length :
    ∀ (rs : List MappedRegion) (a e : Nat),
      e + maxAllowedGap < 18446744073709551616 →
      (∀ x ∈ rs, x.end_ + maxAllowedGap < 18446744073709551616) →
      (coalesceGo (a, e) rs).length = 1 + countSplitsFrom e rs := by
  intro rs
  induction rs with
  | nil => intro a e _ _; rfl
  | cons r rest ih =>
    intro a e he hrest
    have hre : r.end_ + maxAllowedGap < 18446744073709551616 := hrest r (by simp)
    have hrest' : ∀ x ∈ rest, x.end_ + maxAllowedGap < 18446744073709551616 :=
      fun x hx => hrest x (by simp [hx])
    show (if (e + maxAllowedGap) % 18446744073709551616 < r.start then
        (a, e) :: coalesceGo (r.start, r.end_) rest
      else coalesceGo (a, r.end_) rest).length =
      1 + ((if e + maxAllowedGap < r.start then 1 else 0) + countSplitsFrom r.end_ rest)
    rw [Nat.mod_eq_of_lt he]
    by_cases hgap : e + maxAllowedGap < r.start
    · rw [if_pos hgap, if_pos hgap]
      simp only [List.length_cons, ih r.start r.end_ hre hrest']
      omega
    · rw [if_neg hgap, if_neg hgap, ih a r.end_ hre hrest']
      omega

lemma foldl_add_mod (f : Nat × Nat → Nat) :
    ∀ (l : List (Nat × Nat)) (init : Nat),
      l.foldl (fun a x => (a + f x) % 4294967296) (init % 4294967296) =
        (init + (l.map f).sum) % 4294967296 := by
  intro l
  induction l with
  | nil => intro init; simp
  | cons x rest ih =>
    intro init
    simp only [List.foldl_cons, List.map_cons, List.sum_cons]
    rw [Nat.mod_add_mod, ih (init + f x), Nat.add_assoc]

lemma lookupRowIndex_all_gt {row : Nat} :
    ∀ (l : List (Nat × Nat)), (∀ e ∈ l, row < e.1) → lookupRowIndex l row = none := by
  intro l h
  cases l with
  | nil => rfl
  | cons e rest =>
    show (if row < e.1 then none else some ((lookupRowIndex rest row).getD e)) = none
    rw [if_pos (h e (by simp))]

lemma lookupRowIndex_split {row : Nat} :
    ∀ (pre : List (Nat × Nat)) (e : Nat × Nat) (post : List (Nat × Nat)),
      (∀ x ∈ pre, x.1 ≤ row) → e.1 ≤ row → (∀ x ∈ post, row < x.1) →
      lookupRowIndex (pre ++ e :: post) row = some e := by
  intro pre
  induction pre with
  | nil =>
    intro e post _ he hpost
    show (if row < e.1 then none else some ((lookupRowIndex post row).getD e)) = some e
    rw [if_neg (by omega), lookupRowIndex_all_gt post hpost]
    rfl
  | cons p pre' ih =>
    intro e post hpre he hpost
    show (if row < p.1 then none
      else some ((lookupRowIndex (pre' ++ e :: post) row).getD p)) = some e
    have hp : p.1 ≤ row := hpre p (by simp)
    rw [if_neg (by omega), ih e post (fun x hx => hpre x (by simp [hx])) he hpost]
    rfl

lemma str_ext {a b : String} (h : a.data = b.data) : a = b := by
  cases a
  cases b
  exact congrArg String.mk h

lemma str_data_append (a b : String) : (a ++ b).data = a.data ++ b.data := rfl

lemma take_append_len : ∀ (xs ys : List Char) (k : Nat),
    (xs ++ ys).take (xs.length + k) = xs ++ ys.take k := by
  intro xs
  induction xs with
  | nil => intro ys k; simp
  | cons x rest ih =>
    intro ys k
    have harith : (x :: rest).length + k = (rest.length + k) + 1 := by
      simp
      omega
    rw [harith]
    simp only [List.cons_append, List.take_succ_cons, ih]

lemma joinTrail_two_le (s : String) (l : List String) :
    2 ≤ (joinTrail (s :: l)).data.length := by
  show 2 ≤ (s ++ ", " ++ joinTrail l).data.length
  simp only [str_data_append, List.length_append, List.length_cons, List.length_nil]
  omega

lemma chop_joinTrail : ∀ (l : List String), chopString (joinTrail l) = commaJoined l := by
  intro l
  induction l with
  | nil => rfl
  | cons s rest ih =>
    cases rest with
    | nil =>
      show chopString (s ++ ", " ++ joinTrail []) = s
      have hdata : (s ++ ", " ++ joinTrail []).data = s.data ++ [',', ' '] := by
        show (s.data ++ [',', ' ']) ++ [] = s.data ++ [',', ' ']
        simp
      unfold chopString
      rw [if_pos (by rw [hdata]; simp [List.length_append])]
      apply str_ext
      show (s ++ ", " ++ joinTrail []).data.take
          ((s ++ ", " ++ joinTrail []).data.length - 2) = s.data
      rw [hdata]
      simp only [List.length_append]
      have h2 : ([',', ' '] : List Char).length = 2 := rfl
      rw [h2, Nat.add_sub_cancel]
      exact List.take_left s.data [',', ' ']
    | cons t rest' =>
      have hJ2 : 2 ≤ (joinTrail (t :: rest')).data.length := joinTrail_two_le t rest'
      show chopString (s ++ ", " ++ joinTrail (t :: rest')) = s ++ ", " ++ commaJoined (t :: rest')
      have hdata : (s ++ ", " ++ joinTrail (t :: rest')).data =
          (s.data ++ [',', ' ']) ++ (joinTrail (t :: rest')).data := rfl
      unfold chopString
      rw [if_pos (by rw [hdata]; simp [List.length_append]; omega)]
      unfold chopString at ih
      rw [if_pos hJ2] at ih
      apply str_ext
      show (s ++ ", " ++ joinTrail (t :: rest')).data.take
          ((s ++ ", " ++ joinTrail (t :: rest')).data.length - 2) =
        (s.data ++ [',', ' ']) ++ (commaJoined (t :: rest')).data
      rw [hdata]
      have harith : ((s.data ++ [',', ' ']) ++ (joinTrail (t :: rest')).data).length - 2 =
          (s.data ++ [',', ' ']).length + ((joinTrail (t :: rest')).data.length - 2) := by
        simp only [List.length_append]
        have h2 : ([',', ' '] : List Char).length = 2 := rfl
        omega
      rw [harith, take_append_len]
      have hchop : (commaJoined (t :: rest')).data =
          (joinTrail (t :: rest')).data.take ((joinTrail (t :: rest')).data.length - 2) := by
        rw [← ih]
        rfl
      rw [hchop]

lemma pageFlagNames_named :
    ∀ j, j < 32 → ¬(23 ≤ j ∧ j ≤ 27) → (pageFlagNames j).isSome = true := by decide

lemma printFlagsGo_spec (flags : Nat)
    (hgood : ∀ j, 23 ≤ j → j ≤ 27 → flags.testBit j = false) :
    ∀ (count i : Nat) (ret : String), i + count = 32 →
      printFlagsGo flags count i ret =
        some (chopString (ret ++ joinTrail
          (((List.range' i count).filter (fun j => flags.testBit j)).filterMap
            pageFlagNames))) := by
  intro count
  induction count with
  | zero =>
    intro i ret _
    have hr : ret ++ joinTrail (((List.range' i 0).filter
        (fun j => flags.testBit j)).filterMap pageFlagNames) = ret := by
      apply str_ext
      show ret.data ++ [] = ret.data
      simp
    rw [show printFlagsGo flags 0 i ret = some (chopString ret) from rfl, hr]
  | succ count ih =>
    intro i ret hle
    have hi : i < 32 := by omega
    have hrange : List.range' i (count + 1) = i :: List.range' (i + 1) count :=
      List.range'_succ i count 1
    rw [printFlagsGo, hrange]
    by_cases hbit : flags.testBit i = true
    · have hnotres : ¬(23 ≤ i ∧ i ≤ 27) := by
        intro hres
        rw [hgood i hres.1 hres.2] at hbit
        exact Bool.false_ne_true hbit
      obtain ⟨nm, hnm⟩ := Option.isSome_iff_exists.1 (pageFlagNames_named i hi hnotres)
      rw [show isFlagSet flags i = true from hbit, if_pos rfl, hnm,
        List.filter_cons_of_pos hbit, List.filterMap_cons_some hnm]
      show printFlagsGo flags count (i + 1) (ret ++ nm ++ ", ") =
        some (chopString (ret ++ joinTrail (nm :: ((List.range' (i + 1) count).filter
          (fun j => flags.testBit j)).filterMap pageFlagNames)))
      rw [ih (i + 1) (ret ++ nm ++ ", ") (by omega)]
      have hstr : (ret ++ nm ++ ", ") ++ joinTrail (((List.range' (i + 1) count).filter
            (fun j => flags.testBit j)).filterMap pageFlagNames) =
          ret ++ joinTrail (nm :: ((List.range' (i + 1) count).filter
            (fun j => flags.testBit j)).filterMap pageFlagNames) := by
        apply str_ext
        show ((ret.data ++ nm.data) ++ [',', ' ']) ++ _ = ret.data ++ ((nm.data ++ [',', ' ']) ++ _)
        simp [List.append_assoc]
      rw [hstr]
    · have hbit' : flags.testBit i = false := by
        cases h : flags.testBit i
        · rfl
        · exact absurd h hbit
      rw [show isFlagSet flags i = false from hbit', if_neg (by simp),
        List.filter_cons_of_neg (by simp [hbit'])]
      exact ih (i + 1) ret (by omega)

/-- The states a `PageInfoReader` can actually be in after any sequence of
`addData` calls: either `m_length` is the unset `-1`, or it caches the
length prefix read from the (still buffered) frame head. -/
def GoodLen (st : ReaderState) : Prop :=
  st.m_length = -1 ∨ (8 ≤ st.m_buffer.length ∧ st.m_length = readLen st.m_buffer)

instance : DecidablePred GoodLen := fun st =>
  inferInstanceAs (Decidable (st.m_length = -1 ∨
    (8 ≤ st.m_buffer.length ∧ st.m_length = readLen st.m_buffer)))

lemma computeLen_canonical {b0 d : List Nat} {l : Int}
    (hgood : l = -1 ∨ (8 ≤ b0.length ∧ l = readLen b0)) :
    (computeLen (b0 ++ d) l = -1 ∧ (b0 ++ d).length < 8) ∨
      (8 ≤ (b0 ++ d).length ∧ computeLen (b0 ++ d) l = readLen (b0 ++ d)) := by
  rcases hgood with hgood | ⟨hb8, hbl⟩
  · subst hgood
    by_cases h8 : 8 ≤ (b0 ++ d).length
    · right
      refine ⟨h8, ?_⟩
      unfold computeLen
      rw [if_pos ⟨by norm_num, h8⟩]
    · left
      refine ⟨?_, by omega⟩
      unfold computeLen
      rw [if_neg (fun hh => h8 hh.2)]
  · right
    have h8 : 8 ≤ (b0 ++ d).length := by
      rw [List.length_append]; omega
    refine ⟨h8, ?_⟩
    have hr : readLen (b0 ++ d) = readLen b0 := readLen_append hb8
    unfold computeLen
    by_cases hneg : l < 0
    · rw [if_pos ⟨hneg, h8⟩]
    · rw [if_neg (fun hh => hneg hh.1), hbl, hr]

lemma addData_two_frames {f1 f2 : List Nat} (h1 : IsFrame f1) (h2 : IsFrame f2) :
    addData initState (f1 ++ f2) = (⟨[], -1, decodeFrame f2 f2.length⟩, true) := by
  have hstart : addData initState (f1 ++ f2) =
      addDataLoop ((f1 ++ f2).length + 1) (f1 ++ f2) (-1) [] := rfl
  have hcl : computeLen (f1 ++ f2) (-1) = (f1.length : Int) - 8 := by
    unfold computeLen
    rw [if_pos ⟨by norm_num, by rw [List.length_append]; have := h1.1; omega⟩]
    rw [readLen_append h1.1, h1.2]
  have hcond : 0 ≤ computeLen (f1 ++ f2) (-1) ∧
      computeLen (f1 ++ f2) (-1) + 8 ≤ ((f1 ++ f2).length : Int) := by
    rw [hcl, List.length_append]
    have := h1.1
    have := h2.1
    constructor <;> [omega; · push_cast; omega]
  have htonat : (computeLen (f1 ++ f2) (-1)).toNat + 8 = f1.length := by
    rw [hcl]
    have := h1.1
    omega
  rw [hstart, addDataLoop_step_decode hcond, htonat, List.drop_left]
  have hf2 : f2.length < (f1 ++ f2).length := by
    rw [List.length_append]
    have := h1.1
    omega
  rw [addDataLoop_enough (f1 ++ f2).length f2 (-1) _ (f1 ++ f2).length (by omega) hf2]
  have hcl2 : computeLen f2 (-1) = (f2.length : Int) - 8 := computeLen_of_frame h2
  have hcond2 : 0 ≤ computeLen f2 (-1) ∧ computeLen f2 (-1) + 8 ≤ (f2.length : Int) := by
    rw [hcl2]
    have := h2.1
    omega
  have htonat2 : (computeLen f2 (-1)).toNat + 8 = f2.length := by
    rw [hcl2]
    have := h2.1
    omega
  rw [addDataLoop_step_decode hcond2, htonat2, List.drop_length]
  rw [addDataLoop_enough f2.length [] (-1) _ f2.length (by simp)
    (by simp; have := h2.1; omega)]
  rw [show ([] : List Nat).length + 1 = 0 + 1 by simp]
  rw [addDataLoop_step_break (by
    unfold computeLen
    rw [if_neg (by intro hh; simp at hh)]
    omega)]
  have hcl0 : computeLen [] (-1) = -1 := by
    unfold computeLen
    rw [if_neg (by intro hh; simp at hh)]
  rw [hcl0]

/-- A region already decoded before the malformed traffic arrives. -/
def priorRegion : MappedRegion := ⟨20480, 24576, [], [2], [0]⟩

/-- A frame with declared length 20 (so the frame is the first 28 buffered
bytes) whose single region declares `backingFileLen = 6`: the 6 file-name
bytes lie beyond the frame boundary, in the 6 extra buffered bytes
`65..70`. -/
def overrunBytes : List Nat :=
  [20, 0, 0, 0, 0, 0, 0, 0,
   0, 0, 0, 0, 0, 0, 0, 0,
   0, 0, 0, 0, 0, 0, 0, 0,
   6, 0, 0, 0,
   65, 66, 67, 68, 69, 70]

/-- C1, counterexample.  The claim says a region whose declared
`backingFileLen` would read past the frame boundary is surfaced as a
DecodeFault, no out-of-frame byte is read and the previously decoded
region sequence is left untouched.  Feeding `overrunBytes` to a reader
holding `priorRegion` instead replaces the previous snapshot and reports
success. -/
theorem addData_overrun_counterexample :
    (addData ⟨[], -1, [priorRegion]⟩ overrunBytes).1.m_mappedRegions ≠ [priorRegion] ∧
    (addData ⟨[], -1, [priorRegion]⟩ overrunBytes).2 = true := by decide

/-- C1, amended.  `PageInfoReader::addData` performs no length
validation: for `overrunBytes` (declared length 20, frame boundary at
byte 28, region `backingFileLen` 6) the decode succeeds, the decoded
region's `backingFile` consists precisely of the 6 buffered bytes beyond
the frame boundary, and the previous region sequence is replaced by this
region. -/
theorem addData_overrun_behavior :
    addData ⟨[], -1, [priorRegion]⟩ overrunBytes =
      (⟨[65, 66, 67, 68, 69, 70], -1, [⟨0, 0, [65, 66, 67, 68, 69, 70], [], []⟩]⟩, true) ∧
    readLen overrunBytes = 20 ∧
    overrunBytes.length = 34 ∧
    overrunBytes.drop 28 = [65, 66, 67, 68, 69, 70] := by decide

/-- C2.  Feeding a complete frame to the decoder split into arbitrary
consecutive chunks yields the same decoded snapshot (the same region
sequence, hence the same starts, ends, backing files, use counts and flag
words) as feeding the whole frame in one call. -/
theorem addData_partial_feed_equiv (fs : List Nat) (cs : List (List Nat))
    (h1 : IsFrame fs) (h2 : cs.flatten = fs) :
    (feedChunks initState cs).m_mappedRegions =
      (addData initState fs).1.m_mappedRegions := by
  rw [addData_single_frame h1]
  have hb : ([] : List Nat) ++ cs.flatten = fs := by
    rw [List.nil_append]
    exact h2
  have := chunk_feed fs h1 cs [] (-1) [] hb (Or.inl rfl)
    (by simp; have := h1.1; omega)
  exact this

/-- C2, witness: the one-region frame `frame36` split after 10 bytes. -/
theorem addData_partial_feed_equiv_witness :
    IsFrame frame36 ∧ [frame36.take 10, frame36.drop 10].flatten = frame36 ∧
    (feedChunks initState [frame36.take 10, frame36.drop 10]).m_mappedRegions =
      (addData initState frame36).1.m_mappedRegions :=
  ⟨by decide, by decide,
    addData_partial_feed_equiv frame36 [frame36.take 10, frame36.drop 10]
      (by decide) (by decide)⟩

/-- C3.  (a) `addData` returns true exactly when the head of the pending
stream forms a complete frame, i.e. at least one frame is decoded in the
call; (b) when two complete frames arrive in one call only the second
frame's regions are retained; (c) a frame whose declared length exceeds
the bytes available so far is not an error: the bytes are buffered, no
snapshot is produced, and the call returns false. -/
theorem addData_feed_contract :
    (∀ (st : ReaderState) (d : List Nat), GoodLen st →
      ((addData st d).2 = true ↔ HeadFrameComplete (st.m_buffer ++ d))) ∧
    (∀ (f1 f2 : List Nat), IsFrame f1 → IsFrame f2 →
      (addData initState (f1 ++ f2)).1.m_mappedRegions =
        (addData initState f2).1.m_mappedRegions ∧
      (addData initState (f1 ++ f2)).2 = true) ∧
    (∀ (d : List Nat), 8 ≤ d.length → 0 ≤ readLen d →
      (d.length : Int) < readLen d + 8 →
      addData initState d = (⟨d, readLen d, []⟩, false)) := by
  refine ⟨?_, ?_, ?_⟩
  · intro st d hgood
    have hstart : addData st d = addDataLoop ((st.m_buffer ++ d).length + 1)
        (st.m_buffer ++ d) st.m_length st.m_mappedRegions := rfl
    have hcanon := computeLen_canonical (d := d) hgood
    by_cases hc : 0 ≤ computeLen (st.m_buffer ++ d) st.m_length ∧
        computeLen (st.m_buffer ++ d) st.m_length + 8 ≤ ((st.m_buffer ++ d).length : Int)
    · rw [hstart, addDataLoop_step_decode hc]
      simp only [true_iff]
      rcases hcanon with ⟨hm, _⟩ | ⟨h8, hm⟩
      · rw [hm] at hc
        omega
      · rw [hm] at hc
        exact ⟨h8, hc.1, hc.2⟩
    · rw [hstart, addDataLoop_step_break hc]
      simp only [Bool.false_eq_true, false_iff]
      intro hfc
      rcases hcanon with ⟨_, hsmall⟩ | ⟨_, hm⟩
      · have := hfc.1
        omega
      · rw [hm] at hc
        exact hc ⟨hfc.2.1, hfc.2.2⟩
  · intro f1 f2 h1 h2
    rw [addData_two_frames h1 h2, addData_single_frame h2]
    exact ⟨rfl, rfl⟩
  · intro d h8 hpos hshort
    have hstart : addData initState d = addDataLoop (d.length + 1) d (-1) [] := rfl
    have hcl : computeLen d (-1) = readLen d := by
      unfold computeLen
      rw [if_pos ⟨by norm_num, h8⟩]
    have hneg : ¬(0 ≤ computeLen d (-1) ∧ computeLen d (-1) + 8 ≤ (d.length : Int)) := by
      rw [hcl]
      omega
    rw [hstart, addDataLoop_step_break hneg, hcl]

/-- C3, witness: the contract applied to concrete frames — the empty
frame `frame8`, the two-frame stream `frame8 ++ frame36`, and a truncated
stream announcing 20 payload bytes with none buffered yet. -/
theorem addData_feed_contract_witness :
    (GoodLen initState ∧
      ((addData initState frame8).2 = true ↔ HeadFrameComplete ([] ++ frame8))) ∧
    (IsFrame frame8 ∧ IsFrame frame36 ∧
      (addData initState (frame8 ++ frame36)).1.m_mappedRegions =
        (addData initState frame36).1.m_mappedRegions) ∧
    (8 ≤ [(20 : Nat), 0, 0, 0, 0, 0, 0, 0].length ∧
      addData initState [20, 0, 0, 0, 0, 0, 0, 0] =
        (⟨[20, 0, 0, 0, 0, 0, 0, 0], 20, []⟩, false)) :=
  ⟨⟨by decide, addData_feed_contract.1 initState frame8 (by decide)⟩,
   ⟨by decide, by decide,
    (addData_feed_contract.2.1 frame8 frame36 (by decide) (by decide)).1⟩,
   ⟨by decide, by
    have h := addData_feed_contract.2.2 [20, 0, 0, 0, 0, 0, 0, 0]
      (by decide) (by decide) (by decide)
    rw [h]
    decide⟩⟩

/-- A frame whose single region has `end == start` (a zero-length
region): declared length 20, region `[0x1000, 0x1000)` with an empty
backing file name. -/
def zeroLenFrame : List Nat :=
  [20, 0, 0, 0, 0, 0, 0, 0,
   0, 16, 0, 0, 0, 0, 0, 0,
   0, 16, 0, 0, 0, 0, 0, 0,
   0, 0, 0, 0]

/-- A frame whose single region has `end - start = 0x1001`, not a
multiple of the page size. -/
def nonMultFrame : List Nat :=
  [28, 0, 0, 0, 0, 0, 0, 0,
   0, 0, 0, 0, 0, 0, 0, 0,
   1, 16, 0, 0, 0, 0, 0, 0,
   0, 0, 0, 0,
   7, 0, 0, 0,
   0, 0, 0, 128]

/-- C4, counterexample.  The claim says a region with `end <= start` is
rejected as MalformedRegion, fatal to the frame.  Feeding a frame whose
region has `end == start` instead decodes successfully: the zero-length
region is silently accepted into the snapshot and the call reports
success. -/
theorem addData_zero_length_counterexample :
    addData initState zeroLenFrame = (⟨[], -1, [⟨4096, 4096, [], [], []⟩]⟩, true) := by
  decide

/-- C4, amended.  The decoder has no MalformedRegion check: a region with
`end == start` is decoded as a region with empty page arrays and accepted
into the snapshot (matching the source's own comment that `end == start`
"unfortunately happens sometimes"), and a region whose `end - start` is
not a multiple of the page size has its page count floored and is
likewise accepted. -/
theorem addData_malformed_region_accepted :
    addData initState zeroLenFrame = (⟨[], -1, [⟨4096, 4096, [], [], []⟩]⟩, true) ∧
    addData initState nonMultFrame =
      (⟨[], -1, [⟨0, 4097, [], [7], [2147483648]⟩]⟩, true) := by
  decide

/-- A one-page region at `[0x1000, 0x2000)`. -/
def regA : MappedRegion := ⟨4096, 8192, [], [1], [2147483648]⟩

/-- A one-page region whose gap to `regA` is exactly 65 pages. -/
def regB65 : MappedRegion := ⟨274432, 278528, [], [1], [2147483648]⟩

/-- A one-page region whose gap to `regA` is exactly 64 pages. -/
def regB64 : MappedRegion := ⟨270336, 274432, [], [1], [2147483648]⟩

/-- A valid one-page region ending 64 pages below the top of the 64-bit
address space: `end + maxAllowedGap` wraps around 2^64. -/
def regHigh : MappedRegion := ⟨18446744073709543424, 18446744073709547520, [], [1], [2147483648]⟩

/-- C5, counterexample.  The claim says the scan splits exactly when the
gap exceeds 64 pages.  The source computes `largeRegion.second +
maxAllowedGap` in wrapping `quint64` arithmetic, so for the sorted
single-region sequence `[regHigh]` — whose end lies within 64 pages of
2^64 — the wrapped sum is tiny, the comparison against the region's own
start succeeds spuriously, and the scan emits the span twice although
there is no over-tolerance gap at all. -/
theorem coalesce_wrap_counterexample :
    validSorted [regHigh] ∧ countSplits [regHigh] = 0 ∧
    largeRegionsOf [regHigh] =
      [(18446744073709543424, 18446744073709547520),
       (18446744073709543424, 18446744073709547520)] ∧
    (largeRegionsOf [regHigh]).length ≠ 1 + countSplits [regHigh] := by decide

/-- C5, amended.  On a sorted, non-overlapping region sequence in which
every region's end lies more than 64 pages below 2^64 (so that
`end + maxAllowedGap` does not wrap in the `quint64` addition), the
coalescing scan produces exactly one LargeRegion more than the number of
adjacent pairs whose gap exceeds `maxAllowedGap` (= 64 pages), i.e. it
splits exactly when the gap from the previous region's end to the next
region's start exceeds 64 pages; in particular two regions separated by
exactly 65 pages give two LargeRegions and two regions separated by
exactly 64 pages give one. -/
theorem coalesce_gap_tolerance :
    (∀ (r : MappedRegion) (rs : List MappedRegion), validSorted (r :: rs) →
      (∀ x ∈ r :: rs, x.end_ + maxAllowedGap < 18446744073709551616) →
      (largeRegionsOf (r :: rs)).length = 1 + countSplits (r :: rs)) ∧
    largeRegionsOf [regA, regB65] = [(4096, 8192), (274432, 278528)] ∧
    largeRegionsOf [regA, regB64] = [(4096, 274432)] := by
  refine ⟨?_, by decide, by decide⟩
  intro r rs hv hbound
  have hse : r.start ≤ r.end_ := hv.1 r (by simp)
  have hrb : r.end_ + maxAllowedGap < 18446744073709551616 := hbound r (by simp)
  show (coalesceGo (r.start, r.end_) (r :: rs)).length = 1 + countSplitsFrom r.end_ rs
  have hstep : coalesceGo (r.start, r.end_) (r :: rs) = coalesceGo (r.start, r.end_) rs := by
    show (if (r.end_ + maxAllowedGap) % 18446744073709551616 < r.start then
        (r.start, r.end_) :: coalesceGo (r.start, r.end_) rs
      else coalesceGo (r.start, r.end_) rs) = coalesceGo (r.start, r.end_) rs
    rw [Nat.mod_eq_of_lt hrb, if_neg (by omega)]
  rw [hstep, coalesceGo_length rs r.start r.end_ hrb (fun x hx => hbound x (by simp [hx]))]

/-- C5, witness: the general count theorem at the 65-page-gap pair. -/
theorem coalesce_gap_tolerance_witness :
    validSorted [regA, regB65] ∧
    (∀ x ∈ [regA, regB65], x.end_ + maxAllowedGap < 18446744073709551616) ∧
    (largeRegionsOf [regA, regB65]).length = 1 + countSplits [regA, regB65] :=
  ⟨by decide, by decide, coalesce_gap_tolerance.1 regA [regB65] (by decide) (by decide)⟩

/-- C6, counterexample.  The claim says the computed row count equals
the sum of `ceil(pagesInSpan / 512)` plus the separators for every
non-empty LargeRegion list.  `rowCount` is a 32-bit `uint`, so for the
single LargeRegion `(0, 2^53)` — 2^41 pages, 2^32 rows — the program's
counter wraps to 0 while the claimed formula gives 2^32. -/
theorem rowCount_wrap_counterexample :
    rowCountOf [((0 : Nat), 9007199254740992)] = 0 ∧
    ([((0 : Nat), 9007199254740992)].map
        (fun lr => ceilDivSpec ((lr.2 - lr.1) / pageSize) columnCount)).sum +
      tilesPerSeparator * ([((0 : Nat), 9007199254740992)].length - 1) = 4294967296 ∧
    (0 : Nat) ≠ 4294967296 := by decide

/-- C6, amended.  For every non-empty LargeRegion list the computed row
count equals the sum over LargeRegions of `ceil(pagesInSpan /
columnCount)` plus `tilesPerSeparator` (= 2) separator rows between each
pair of consecutive LargeRegions and none after the last, reduced modulo
2^32 (the width of the `uint` row counter); the plain sum-plus-separators
value is produced whenever it is below 2^32, and a single LargeRegion of
exactly 512 pages yields exactly 1 row and 0 separator rows. -/
theorem rowCount_formula :
    (∀ (lrs : List (Nat × Nat)), lrs ≠ [] →
      rowCountOf lrs =
        ((lrs.map (fun lr => ceilDivSpec (sub64 lr.2 lr.1 / pageSize) columnCount)).sum +
          tilesPerSeparator * (lrs.length - 1)) % 4294967296) ∧
    (∀ (lrs : List (Nat × Nat)), lrs ≠ [] →
      (lrs.map (fun lr => ceilDivSpec (sub64 lr.2 lr.1 / pageSize) columnCount)).sum +
          tilesPerSeparator * (lrs.length - 1) < 4294967296 →
      rowCountOf lrs =
        (lrs.map (fun lr => ceilDivSpec (sub64 lr.2 lr.1 / pageSize) columnCount)).sum +
          tilesPerSeparator * (lrs.length - 1)) ∧
    rowCountOf [(4096, 4096 + 512 * 4096)] = 1 ∧
    ([((4096 : Nat), 4096 + 512 * 4096)].length - 1) * tilesPerSeparator = 0 := by
  have hgen : ∀ (lrs : List (Nat × Nat)), lrs ≠ [] →
      rowCountOf lrs =
        ((lrs.map (fun lr => ceilDivSpec (sub64 lr.2 lr.1 / pageSize) columnCount)).sum +
          tilesPerSeparator * (lrs.length - 1)) % 4294967296 := by
    intro lrs _
    unfold rowCountOf
    rw [foldl_add_mod rowsOfLargeRegion lrs]
    have hfun : lrs.map rowsOfLargeRegion =
        lrs.map (fun lr => ceilDivSpec (sub64 lr.2 lr.1 / pageSize) columnCount) := by
      apply List.map_congr_left
      intro lr _
      show (sub64 lr.2 lr.1 / pageSize + (columnCount - 1)) / columnCount =
        (sub64 lr.2 lr.1 / pageSize + columnCount - 1) / columnCount
      simp [columnCount]
    rw [hfun]
    have harith : (lrs.length - 1) * tilesPerSeparator +
        (lrs.map (fun lr => ceilDivSpec (sub64 lr.2 lr.1 / pageSize) columnCount)).sum =
        (lrs.map (fun lr => ceilDivSpec (sub64 lr.2 lr.1 / pageSize) columnCount)).sum +
          tilesPerSeparator * (lrs.length - 1) := by
      simp only [tilesPerSeparator]
      omega
    rw [harith]
  refine ⟨hgen, ?_, by decide, by decide⟩
  intro lrs hne hlt
  rw [hgen lrs hne, Nat.mod_eq_of_lt hlt]

/-- C6, witness: the row-count formula at a two-LargeRegion list whose
total stays below 2^32. -/
theorem rowCount_formula_witness :
    ([((0 : Nat), (409600 : Nat)), (2048000000, 2048409600)] ≠ []) ∧
    ([((0 : Nat), (409600 : Nat)), (2048000000, 2048409600)].map
        (fun lr => ceilDivSpec (sub64 lr.2 lr.1 / pageSize) columnCount)).sum +
      tilesPerSeparator * ([((0 : Nat), (409600 : Nat)), (2048000000, 2048409600)].length - 1) <
        4294967296 ∧
    rowCountOf [((0 : Nat), (409600 : Nat)), (2048000000, 2048409600)] =
      ([((0 : Nat), (409600 : Nat)), (2048000000, 2048409600)].map
        (fun lr => ceilDivSpec (sub64 lr.2 lr.1 / pageSize) columnCount)).sum +
        tilesPerSeparator * ([((0 : Nat), (409600 : Nat)), (2048000000, 2048409600)].length - 1) :=
  ⟨by decide, by decide, rowCount_formula.2.1 _ (by decide) (by decide)⟩

/-- The single-region snapshot of the spec's scenario: one region
`[0x1000, 0x3000)` with two present pages of use count 1. -/
def scnRegion : MappedRegion := ⟨4096, 12288, [], [1, 1], [2147483648, 2147483648]⟩

/-- C7, counterexample.  The claim says a hit returns
`baseAddress + ((row - firstRow) * 512 + column) * pageSize`.  The cell
offset is computed in 32-bit unsigned arithmetic (line 518), so for the
row index `[(0, 0x1000)]` at `row = 2^23`, `column = 0` the offset
`2^23 * 512 = 2^32` wraps to 0 and the program returns the bare base
`0x1000`, not the claimed formula's value. -/
theorem addressAtCell_wrap_counterexample :
    addressAtCell [((0 : Nat), (4096 : Nat))] 8388608 0 = 4096 ∧
    (4096 : Nat) ≠ 4096 + ((8388608 - 0) * columnCount + 0) * pageSize := by decide

/-- C7, amended.  `addressAtCell` returns the miss value 0 when no
recorded `firstRow` is at most `row` (the row lies before the first
span); otherwise it uses the greatest entry with `firstRow <= row` and
returns `base + ((row - firstRow) * columnCount + column) * pageSize`
whenever the cell offset `(row - firstRow) * columnCount + column` is
below 2^32 and the resulting address below 2^64 (the offset is computed
in 32-bit unsigned arithmetic and wraps otherwise); for the snapshot with
the single region `[0x1000, 0x3000)` the cell `(0,0)` maps to `0x1000`
and `(0,1)` to `0x2000`. -/
theorem addressAtCell_correct :
    (∀ (idx : List (Nat × Nat)) (row col : Nat), (∀ e ∈ idx, row < e.1) →
      addressAtCell idx row col = 0) ∧
    (∀ (pre : List (Nat × Nat)) (e : Nat × Nat) (post : List (Nat × Nat)) (row col : Nat),
      (∀ x ∈ pre, x.1 ≤ row) → e.1 ≤ row → (∀ x ∈ post, row < x.1) →
      (row - e.1) * columnCount + col < 4294967296 →
      e.2 + ((row - e.1) * columnCount + col) * pageSize < 18446744073709551616 →
      addressAtCell (pre ++ e :: post) row col =
        e.2 + ((row - e.1) * columnCount + col) * pageSize) ∧
    (addressAtCell (buildRowIndex (largeRegionsOf [scnRegion])) 0 0 = 4096 ∧
      addressAtCell (buildRowIndex (largeRegionsOf [scnRegion])) 0 1 = 8192) := by
  refine ⟨?_, ?_, by decide, by decide⟩
  · intro idx row col h
    unfold addressAtCell
    rw [lookupRowIndex_all_gt idx h]
  · intro pre e post row col hpre he hpost h32 h64
    unfold addressAtCell
    rw [lookupRowIndex_split pre e post hpre he hpost]
    show (e.2 + ((row - e.1) * columnCount + col) % 4294967296 * pageSize) %
        18446744073709551616 = e.2 + ((row - e.1) * columnCount + col) * pageSize
    rw [Nat.mod_eq_of_lt h32, Nat.mod_eq_of_lt h64]

/-- C7, witness: the greatest-entry formula at a three-entry row index
with a small, non-wrapping cell offset. -/
theorem addressAtCell_correct_witness :
    ((0 : Nat), (4096 : Nat)).1 ≤ 12 ∧ ((10 : Nat), (1048576 : Nat)).1 ≤ 12 ∧
    (12 - 10) * columnCount + 3 < 4294967296 ∧
    addressAtCell ([((0 : Nat), (4096 : Nat))] ++ ((10 : Nat), (1048576 : Nat)) ::
        [((20 : Nat), (2097152 : Nat))]) 12 3 =
      1048576 + ((12 - 10) * columnCount + 3) * pageSize :=
  ⟨by decide, by decide, by decide,
    addressAtCell_correct.2.1 [((0 : Nat), (4096 : Nat))] ((10 : Nat), (1048576 : Nat))
      [((20 : Nat), (2097152 : Nat))] 12 3 (by decide) (by decide) (by decide)
      (by decide) (by decide)⟩

/-- C8.  The paint loop's per-cell colour choice agrees, for every flag
word and use count, with the first-match-wins precedence exactly as the
claim states it. -/
theorem classifyPage_precedence :
    ∀ (flags useCount : Nat), classifyPage flags useCount = classifySpecPage flags useCount := by
  intro flags useCount
  unfold classifyPage classifySpecPage
  split_ifs <;> first | rfl | omega

/-- The region `[0, 0x1000)`: a mapped region whose genuine base address
is 0. -/
def region0 : MappedRegion := ⟨0, 4096, [], [1], [2147483648]⟩

/-- C10.  The reverse lookup uses the integer 0 as its miss result (row
before the first recorded span), the genuine computed address of the base
cell of a span starting at address 0 is also 0, and the flag-reporting
entry point `printPageFlagsAtAddr` treats address 0 as a no-op — so that
cell never produces flag/use-count output even though its region really
contains address 0, while a nonzero address of the same region does
produce output. -/
theorem zero_address_ambiguity :
    addressAtCell [((3 : Nat), (20480 : Nat))] 2 7 = 0 ∧
    addressAtCell [((0 : Nat), (0 : Nat))] 0 0 = 0 ∧
    printPageFlagsAtAddr [region0] 0 = none ∧
    printPageFlagsAtAddr [region0] (addressAtCell [((0 : Nat), (0 : Nat))] 0 0) = none ∧
    region0.start = 0 ∧ 0 < region0.end_ ∧
    printPageFlagsAtAddr [region0] 2048 = some (2147483648, 1, []) := by decide

/-- C9, counterexample.  The claim says the display function is total
over all 2^32 flag words with no error case and that its internal
assertion holds even when the unused bits 23–27 are set.  Bit 23 has a
null `pageFlagNames` entry, so `assert(pageFlagNames[i])` fails on the
input `1 << 23` (the model returns `none`). -/
theorem printablePageFlags_reserved_bit_counterexample :
    printablePageFlags 8388608 = none ∧ pageFlagNames 23 = none ∧
    Nat.testBit 8388608 23 = true := by decide

/-- C9, amended.  On every flag word none of whose reserved bits 23–27
are set (whatever its other bits, including 28–31 and anything at or
above 32, which the 32-iteration loop ignores), the function succeeds and
returns the comma-joined names of the set flags in ascending bit order;
an input with a reserved bit set trips the assertion instead. -/
theorem printablePageFlags_named_bits :
    ∀ (flags : Nat), (∀ j, 23 ≤ j → j ≤ 27 → flags.testBit j = false) →
      printablePageFlags flags = some (commaJoined (setFlagNames flags)) := by
  intro flags hgood
  unfold printablePageFlags
  rw [printFlagsGo_spec flags hgood 32 0 "" (by omega)]
  have h0 : ("" : String) ++ joinTrail (((List.range' 0 32).filter
      (fun j => flags.testBit j)).filterMap pageFlagNames) =
      joinTrail (((List.range' 0 32).filter
        (fun j => flags.testBit j)).filterMap pageFlagNames) := str_ext rfl
  rw [h0, chop_joinTrail]
  unfold setFlagNames
  rw [List.range_eq_range']

/-- C9, witness: the amended theorem at the flag word `(1 << 31) | 1`
(PRESENT and LOCKED set). -/
theorem printablePageFlags_named_bits_witness :
    printablePageFlags 2147483649 = some "LOCKED, PRESENT" := by
  have h := printablePageFlags_named_bits 2147483649
    (by intro j h1 h2; interval_cases j <;> decide)
  rw [h]
  decide
